import Mathlib

/-!
Shallow embedding of the `n8n-nodes-reranker-ollama` repository.

The repository contains three near-identical variants of a single n8n node
(`RerankerOllama.node.ts`, a second copy of that file, and the unnamed file
`src/unnamed/part_000`):

* a "classification" variant (`rerankQwen`): one chat request per document,
  the reply is graded yes/no;
* a "list-ranking" variant (`rerank`): a single generate request, the reply
  text is expected to contain a JSON array of `{index, score}` objects;
* model listers (`getModels`): two variants query `/api/tags` and validate a
  `models` array, one variant queries `/models` and reads a `data` array.

Network I/O is abstracted: each embedded operation takes the model server's
reply (or the per-document replies) as an explicit argument.  JavaScript
numbers appearing in JSON are modelled exactly as decimals
`mantissa * 10 ^ exp10` (claims only involve short decimal literals, where
this agrees with JS float semantics).  JavaScript `undefined` inside data is
modelled with `Option`.
-/

/-- Exact decimal number, denoting `mantissa * 10 ^ exp10`.  Models the
JavaScript numbers produced by `JSON.parse` on the inputs relevant here. -/
structure JNum where
  mantissa : Int
  exp10 : Int
deriving DecidableEq, Repr

/-- JSON values, as produced by `JSON.parse`. -/
inductive Json where
  | null
  | bool (b : Bool)
  | num (q : JNum)
  | str (s : String)
  | arr (elems : List Json)
  | obj (fields : List (String × Json))

/-- A JavaScript value stored in a metadata field: `none` models `undefined`,
`some j` a JSON value. -/
abbrev MetaVal := Option Json

/-- A JavaScript object used as a document's `metadata` container: an ordered
list of key/value bindings (JS objects cannot hold duplicate keys; the order
is property-insertion order). -/
abbrev Metadata := List (String × MetaVal)

/-- A LangChain-style document as consumed by `compressDocuments`:
`pageContent` plus an optional `metadata` object (`none` models a document
whose `metadata` property is absent/undefined). -/
structure Doc where
  pageContent : String
  metadata : Option Metadata

/-- Default document value used only to totalize list indexing in positions
proved unreachable. -/
def dfltDoc : Doc := ⟨"", none⟩

/-- Field lookup on a JSON value, modelling JS property access `j.k`:
`none` when `j` is not an object or the key is absent (JS `undefined`). -/
def getField? (j : Json) (k : String) : Option Json :=
  match j with
  | .obj fields => (fields.find? (fun p => p.1 == k)).map (fun p => p.2)
  | _ => none

/-- Property read on a metadata object. -/
def getEntry (m : Metadata) (k : String) : Option MetaVal :=
  (m.find? (fun p => p.1 == k)).map (fun p => p.2)

/-- Property write `m[k] = v` on a metadata object: overwrite the first
binding of `k` in place, else append a new binding (JS insertion order). -/
def setEntry : Metadata → String → MetaVal → Metadata
  | [], k, v => [(k, v)]
  | (k', v') :: rest, k, v =>
    if k' = k then (k, v) :: rest else (k', v') :: setEntry rest k v

/-- ASCII lower-casing of one character, as `String.prototype.toLowerCase`
acts on the ASCII range (the only range exercised here). -/
def lowerChar (c : Char) : Char :=
  if 'A' ≤ c ∧ c ≤ 'Z' then Char.ofNat (c.toNat + 32) else c

/-- Models `s.toLowerCase()` on ASCII text. -/
def lowerStr (s : String) : String := ⟨s.data.map lowerChar⟩

/-- ASCII whitespace recognised by trimming and by the JSON grammar. -/
def isWsChar (c : Char) : Bool := c = ' ' || c = '\t' || c = '\n' || c = '\r'

/-- Models `s.trim()`: strip leading and trailing whitespace. -/
def trimStr (s : String) : String :=
  ⟨((s.data.dropWhile isWsChar).reverse.dropWhile isWsChar).reverse⟩

/-- Models `s.includes(pat)`: substring containment. -/
def strContains (s pat : String) : Bool :=
  go s.data pat.data
where
  go : List Char → List Char → Bool
    | [], p => p.isPrefixOf []
    | c :: cs, p => p.isPrefixOf (c :: cs) || go cs p

/-- Models `u.replace(/\/+$/, '')`: strip every trailing slash. -/
def stripTrailingSlashes (u : String) : String :=
  ⟨((u.data.reverse.dropWhile (fun c => c = '/'))).reverse⟩

/-- A thrown `NodeOperationError` (or an unhandled JS runtime error, for the
`TypeError` cases), carrying its message and, when supplied, the `itemIndex`
option. -/
structure OpError where
  message : String
  itemIndex : Option Nat
deriving DecidableEq, Repr

/-! ### JSON parser, modelling `JSON.parse` -/

/-- Numeric value of a decimal digit character. -/
def digitVal (c : Char) : Nat := c.toNat - 48

/-- Value of a digit string, most significant first. -/
def digitsToNat (ds : List Char) : Nat :=
  ds.foldl (fun a c => a * 10 + digitVal c) 0

/-- Numeric value of a hexadecimal digit character. -/
def hexVal (c : Char) : Nat :=
  if '0' ≤ c ∧ c ≤ '9' then c.toNat - 48
  else if 'a' ≤ c ∧ c ≤ 'f' then c.toNat - 87
  else c.toNat - 55

/-- Hexadecimal digit recogniser. -/
def isHexDigit (c : Char) : Bool :=
  ('0' ≤ c ∧ c ≤ '9') || ('a' ≤ c ∧ c ≤ 'f') || ('A' ≤ c ∧ c ≤ 'F')

/-- Parses the remainder of a JSON string literal (the opening quote already
consumed), handling the JSON escape sequences. -/
def parseStringRest (acc : List Char) : List Char → Option (String × List Char)
  | [] => none
  | '"' :: rest => some (⟨acc.reverse⟩, rest)
  | '\\' :: e :: rest =>
    match e with
    | '"' => parseStringRest ('"' :: acc) rest
    | '\\' => parseStringRest ('\\' :: acc) rest
    | '/' => parseStringRest ('/' :: acc) rest
    | 'b' => parseStringRest ('\x08' :: acc) rest
    | 'f' => parseStringRest ('\x0c' :: acc) rest
    | 'n' => parseStringRest ('\n' :: acc) rest
    | 'r' => parseStringRest ('\r' :: acc) rest
    | 't' => parseStringRest ('\t' :: acc) rest
    | 'u' =>
      match rest with
      | h1 :: h2 :: h3 :: h4 :: rest2 =>
        if isHexDigit h1 && isHexDigit h2 && isHexDigit h3 && isHexDigit h4 then
          let n := ((hexVal h1 * 16 + hexVal h2) * 16 + hexVal h3) * 16 + hexVal h4
          parseStringRest (Char.ofNat n :: acc) rest2
        else none
      | _ => none
    | _ => none
  | c :: rest => parseStringRest (c :: acc) rest

/-- Parses an optional JSON exponent part (`e`/`E`, optional sign, digits),
returning the signed exponent value (0 when absent). -/
def parseExpPart (cs : List Char) : Option (Int × List Char) :=
  match cs with
  | 'e' :: r => parseSigned r
  | 'E' :: r => parseSigned r
  | _ => some (0, cs)
where
  parseSigned (r : List Char) : Option (Int × List Char) :=
    match r with
    | '+' :: r2 => parseDigits r2 false
    | '-' :: r2 => parseDigits r2 true
    | _ => parseDigits r false
  parseDigits (r : List Char) (neg : Bool) : Option (Int × List Char) :=
    let ds := r.takeWhile Char.isDigit
    if ds = [] then none
    else
      let v : Int := (digitsToNat ds : Nat)
      some (if neg then -v else v, r.dropWhile Char.isDigit)

/-- Parses a JSON number per the strict JSON grammar (`JSON.parse` rejects
leading `+`, leading zeros and bare `.`), producing its exact decimal
value. -/
def parseNum (cs : List Char) : Option (JNum × List Char) :=
  let (neg, cs1) :=
    match cs with
    | '-' :: r => (true, r)
    | _ => (false, cs)
  let intDs := cs1.takeWhile Char.isDigit
  let rest1 := cs1.dropWhile Char.isDigit
  if intDs = [] then none
  else if intDs.head? = some '0' ∧ intDs.length ≠ 1 then none
  else
    let fracStep : Option (List Char × List Char) :=
      match rest1 with
      | '.' :: r =>
        let ds := r.takeWhile Char.isDigit
        if ds = [] then none else some (ds, r.dropWhile Char.isDigit)
      | _ => some ([], rest1)
    match fracStep with
    | none => none
    | some (fracDs, rest2) =>
      match parseExpPart rest2 with
      | none => none
      | some (e, rest3) =>
        let m : Int := (digitsToNat (intDs ++ fracDs) : Nat)
        some (⟨if neg then -m else m, e - (fracDs.length : Int)⟩, rest3)

mutual

/-- Parses one JSON value (fuel-indexed recursion; `jsonParse` supplies ample
fuel). -/
def parseVal (fuel : Nat) (cs : List Char) : Option (Json × List Char) :=
  match fuel with
  | 0 => none
  | f + 1 =>
    match cs.dropWhile isWsChar with
    | 'n' :: 'u' :: 'l' :: 'l' :: rest => some (.null, rest)
    | 't' :: 'r' :: 'u' :: 'e' :: rest => some (.bool true, rest)
    | 'f' :: 'a' :: 'l' :: 's' :: 'e' :: rest => some (.bool false, rest)
    | '"' :: rest => (parseStringRest [] rest).map (fun p => (.str p.1, p.2))
    | '[' :: rest => parseArrItems f (rest.dropWhile isWsChar) []
    | '{' :: rest => parseObjItems f (rest.dropWhile isWsChar) []
    | other => (parseNum other).map (fun p => (.num p.1, p.2))

/-- Parses array elements after `[` (leading whitespace consumed). -/
def parseArrItems (fuel : Nat) (cs : List Char) (acc : List Json) :
    Option (Json × List Char) :=
  match fuel with
  | 0 => none
  | f + 1 =>
    match cs with
    | ']' :: rest => some (.arr acc.reverse, rest)
    | _ =>
      match parseVal f cs with
      | none => none
      | some (v, rest) =>
        match rest.dropWhile isWsChar with
        | ',' :: rest2 => parseArrItems f (rest2.dropWhile isWsChar) (v :: acc)
        | ']' :: rest2 => some (.arr (v :: acc).reverse, rest2)
        | _ => none

/-- Parses object members after `{` (leading whitespace consumed). -/
def parseObjItems (fuel : Nat) (cs : List Char) (acc : List (String × Json)) :
    Option (Json × List Char) :=
  match fuel with
  | 0 => none
  | f + 1 =>
    match cs with
    | '}' :: rest => some (.obj acc.reverse, rest)
    | '"' :: cs2 =>
      match parseStringRest [] cs2 with
      | none => none
      | some (k, rest) =>
        match rest.dropWhile isWsChar with
        | ':' :: rest2 =>
          match parseVal f rest2 with
          | none => none
          | some (v, rest3) =>
            match rest3.dropWhile isWsChar with
            | ',' :: rest4 => parseObjItems f (rest4.dropWhile isWsChar) ((k, v) :: acc)
            | '}' :: rest4 => some (.obj ((k, v) :: acc).reverse, rest4)
            | _ => none
        | _ => none
    | _ => none

end

/-- Models `JSON.parse(s)`: parse one JSON value and require only trailing
whitespace after it; `none` models a thrown `SyntaxError`. -/
def jsonParse (s : String) : Option Json :=
  match parseVal (2 * s.data.length + 4) s.data with
  | none => none
  | some (j, rest) => if rest.dropWhile isWsChar = [] then some j else none

/-! ### List-ranking variant: `rerank` (second node file and `part_000`) -/

/-- One entry of the reranker's intermediate result list, as built by
`rerank` (`{index: r.index - 1, relevanceScore: r.score}`) or by `rerankQwen`
after conversion.  `index = none` models `NaN` (the value of `r.index - 1`
when the model reply's entry carries no numeric `index` field);
`relevanceScore = none` models `undefined`. -/
structure RerankResult where
  index : Option JNum
  relevanceScore : Option Json

/-- Models `text.match(/\[[\s\S]*\]/)`: the leftmost-then-greedy match runs
from the first `[` that is followed by some `]` up to the last `]` of the
text; `none` when no such pair exists. -/
def extractArray (text : String) : Option String :=
  let cs := text.data
  match cs.reverse.findIdx? (fun c => c = ']') with
  | none => none
  | some k =>
    let j := cs.length - 1 - k
    match (cs.take j).findIdx? (fun c => c = '[') with
    | none => none
    | some i => some ⟨(cs.drop i).take (j + 1 - i)⟩

/-- Exact decimal subtraction of 1, modelling `r.index - 1` on a parsed JSON
number. -/
def jnumSub1 (j : JNum) : JNum :=
  if 0 ≤ j.exp10 then ⟨j.mantissa * 10 ^ j.exp10.toNat - 1, 0⟩
  else ⟨j.mantissa - 10 ^ (-j.exp10).toNat, j.exp10⟩

/-- Models `(r) => ({index: r.index - 1, relevanceScore: r.score})` on one
parsed array entry.  A non-numeric or absent `index` field yields `none`
(JS `undefined - 1 = NaN`); `relevanceScore` is the raw `score` field
(absent/non-object entry gives `undefined`). -/
def toRerankResult (entry : Json) : RerankResult :=
  { index :=
      match getField? entry "index" with
      | some (.num q) => some (jnumSub1 q)
      | _ => none,
    relevanceScore := getField? entry "score" }

/-- Elements of a parsed JSON array (the extracted text always starts with
`[`, so a successful parse is always an array; the default is unreachable). -/
def jsonElems (j : Json) : List Json :=
  match j with
  | .arr l => l
  | _ => []

/-- Models the list-ranking `rerank(documents, query)` from the point where
the HTTP response text `text` is in hand: extract the first bracketed
substring, `JSON.parse` it, truncate to `Math.min(topN, results.length)`,
and shift each entry's 1-based `index` down by one.  The two `throw
NodeOperationError` sites become the two `Except.error` values. -/
def rerank (text : String) (topN : Nat) (itemIndex : Nat) :
    Except OpError (List RerankResult) :=
  match extractArray text with
  | none => .error ⟨"Failed to parse reranker output.", some itemIndex⟩
  | some sub =>
    match jsonParse sub with
    | none => .error ⟨"Invalid JSON in reranker response.", some itemIndex⟩
    | some j =>
      let results := jsonElems j
      let rankings := results.take (min topN results.length)
      .ok (rankings.map toRerankResult)

/-! ### Classification variant: `rerankQwen` (first node file) -/

/-- One per-document grading result, as built by `rerankQwen`:
`{index, relevanceScore: answer?.includes('yes') ? 1 : 0}`. -/
structure QwenResult where
  index : Nat
  relevanceScore : Nat
deriving DecidableEq, Repr

/-- Models `response?.message?.content?.trim()?.toLowerCase()` followed by
`answer?.includes('yes') ? 1 : 0`; `reply = none` models a response with no
string content (then `answer` is `undefined` and the score is 0). -/
def scoreReply (reply : Option String) : Nat :=
  match reply with
  | none => 0
  | some s => if strContains (lowerStr (trimStr s)) "yes" then 1 else 0

/-- The per-document results in input-index order, i.e. the resolved value of
`Promise.all(documents.map(async (doc, index) => ...))` where `replies`
lists each call's reply text. -/
def qwenBase (replies : List (Option String)) : List QwenResult :=
  replies.enum.map (fun p => ⟨p.1, scoreReply p.2⟩)

/-- Insertion step of the stable descending sort. -/
def insertDesc (x : QwenResult) : List QwenResult → List QwenResult
  | [] => [x]
  | y :: ys =>
    if y.relevanceScore ≤ x.relevanceScore then x :: y :: ys
    else y :: insertDesc x ys

/-- Models `results.sort((a, b) => b.relevanceScore - a.relevanceScore)`:
per the ECMAScript specification `Array.prototype.sort` is stable, so this
is the stable descending sort by `relevanceScore`. -/
def sortDesc : List QwenResult → List QwenResult
  | [] => []
  | x :: xs => insertDesc x (sortDesc xs)

/-- Joint await of the per-document chat calls (`Promise.all`): collects the
replies for document indices `start, start+1, ...`; the first failing call
rejects the whole batch. -/
def collectRange (grade : Nat → Except OpError (Option String)) :
    Nat → Nat → Except OpError (List (Option String))
  | _, 0 => .ok []
  | start, k + 1 =>
    match grade start with
    | .error e => .error e
    | .ok r =>
      match collectRange grade (start + 1) k with
      | .error e => .error e
      | .ok rs => .ok (r :: rs)

/-- Models the classification `rerankQwen(documents, query)` with the network
abstracted by `grade` (the outcome of the chat call for each document
index): await all calls, score each reply, sort descending by score
(stably), and truncate to `Math.min(topN, sorted.length)`. -/
def rerankQwen (n : Nat) (grade : Nat → Except OpError (Option String))
    (topN : Nat) : Except OpError (List QwenResult) :=
  match collectRange grade 0 n with
  | .error e => .error e
  | .ok replies =>
    let sorted := sortDesc (qwenBase replies)
    .ok (sorted.take (min topN sorted.length))

/-! ### Shared `compressDocuments` body -/

/-- Exact integer value of a decimal, when it has one. -/
def jnumToInt (j : JNum) : Option Int :=
  if 0 ≤ j.exp10 then some (j.mantissa * 10 ^ j.exp10.toNat)
  else if j.mantissa % (10 ^ (-j.exp10).toNat : Nat) = 0 then
    some (j.mantissa / (10 ^ (-j.exp10).toNat : Nat))
  else none

/-- Valid 0-based position named by a result's `index` in a list of length
`n`: `documents[i]` is a document (not `undefined`) exactly when `i` is an
integer with `0 ≤ i < n`. -/
def docIdx? (i : Option JNum) (n : Nat) : Option Nat :=
  match i with
  | none => none
  | some q =>
    match jnumToInt q with
    | none => none
    | some k => if 0 ≤ k ∧ k.toNat < n then some k.toNat else none

/-- Models the two mutations `doc.metadata = doc.metadata || {}` and
`doc.metadata.relevanceScore = result.relevanceScore` on one document. -/
def mutateDoc (d : Doc) (score : MetaVal) : Doc :=
  { d with metadata := some (setEntry (d.metadata.getD []) "relevanceScore" score) }

/-- Whether the document's metadata object has a `relevanceScore` property
(of any value, as JS `in`). -/
def hasRelevanceScore (d : Doc) : Bool :=
  (getEntry (d.metadata.getD []) "relevanceScore").isSome

/-- The mutation pass of `compressDocuments`'s `results.map(...)`, executed
left to right on the shared document store: returns the post-state of the
input document array together with the selected positions, or `none` when
some `documents[result.index]` is `undefined` (JS then throws a `TypeError`
when setting its `metadata`). -/
def applyResults : List Doc → List RerankResult → Option (List Doc × List Nat)
  | store, [] => some (store, [])
  | store, r :: rs =>
    match docIdx? r.index store.length with
    | none => none
    | some i =>
      match applyResults (store.set i (mutateDoc ((store[i]?).getD dfltDoc) r.relevanceScore)) rs with
      | none => none
      | some (st, idxs) => some (st, i :: idxs)

/-- Shared tail of both `compressDocuments` bodies: run the mutation pass and
return the post-state plus the returned document list.  Each returned entry
aliases the mutated document object, so its observed value is the
post-state value at the selected position. -/
def compressWith (docs : List Doc) (results : List RerankResult) :
    Except OpError (List Doc × List Doc) :=
  match applyResults docs results with
  | some (st, idxs) => .ok (st, idxs.map (fun i => (st[i]?).getD dfltDoc))
  | none => .error ⟨"TypeError: cannot set properties of undefined", none⟩

/-- View of a classification result under the shared result shape consumed by
`compressDocuments`: both index and score are plain JS integers. -/
def qwenToResult (r : QwenResult) : RerankResult :=
  ⟨some ⟨(r.index : Int), 0⟩, some (.num ⟨(r.relevanceScore : Int), 0⟩)⟩

/-- Models `compressDocuments` of the classification node file.  The first
component of a successful value is the post-state of the caller's document
array, the second the returned list.  `documents = none` models a
null/undefined argument (`!documents?.length` short-circuits). -/
def compressDocumentsQwen (documents : Option (List Doc))
    (grade : Nat → Except OpError (Option String)) (topN : Nat) :
    Except OpError (List Doc × List Doc) :=
  match documents with
  | none => .ok ([], [])
  | some docs =>
    if docs.isEmpty then .ok (docs, [])
    else
      match rerankQwen docs.length grade topN with
      | .error e => .error e
      | .ok results => compressWith docs (results.map qwenToResult)

/-- Models `compressDocuments` of the list-ranking node files (the second
node file and `part_000` share this body verbatim); `response` is the
outcome of the single `/api/generate` call, whose reply text feeds
`rerank`. -/
def compressDocumentsGen (documents : Option (List Doc))
    (response : Except OpError String) (topN itemIndex : Nat) :
    Except OpError (List Doc × List Doc) :=
  match documents with
  | none => .ok ([], [])
  | some docs =>
    if docs.isEmpty then .ok (docs, [])
    else
      match response with
      | .error e => .error e
      | .ok text =>
        match rerank text topN itemIndex with
        | .error e => .error e
        | .ok results => compressWith docs results

/-! ### Model listers (`getModels`) -/

/-- The `value` sent for one `/api/tags` model entry: `model.name` when it is
a string, else `none` (JS would pass the raw non-string through; only
string-ness matters to the whitelist filter modelled below). -/
def optionValue (entry : Json) : Option String :=
  match getField? entry "name" with
  | some (.str s) => some s
  | _ => none

/-- The whitelist of accepted model-name substrings in the first node file. -/
def modelsWhitelist : List String := ["qwen3-reranker"]

/-- Models `getModels` of the first node file from the point where the
response body is parsed JSON: require a `models` array (else throw), map
entries to option values, and keep those whose lower-cased value contains a
whitelisted substring (`option.value?.toLowerCase?.() || ''`). -/
def getModelsTags (body : Json) : Except OpError (List (Option String)) :=
  match getField? body "models" with
  | some (.arr ms) =>
    .ok ((ms.map optionValue).filter
      (fun v => modelsWhitelist.any (fun w => strContains (lowerStr (v.getD "")) w)))
  | _ => .error ⟨"Unexpected response: missing \"models\" array from Ollama API.", none⟩

/-- Models `getModels` of the second node file: identical to `getModelsTags`
but without the whitelist filter. -/
def getModelsTagsAll (body : Json) : Except OpError (List (Option String)) :=
  match getField? body "models" with
  | some (.arr ms) => .ok (ms.map optionValue)
  | _ => .error ⟨"Unexpected response: missing \"models\" array from Ollama API.", none⟩

/-- Models `getModels` of `part_000`: `(result.data ?? []).map(m => ...)`.
A missing or null `data` field silently yields the empty option list; a
non-null non-array `data` crashes (`.map` is not a function). -/
def getModelsList (body : Json) : Except OpError (List (Option String)) :=
  match getField? body "data" with
  | none => .ok []
  | some .null => .ok []
  | some (.arr ms) =>
    .ok (ms.map (fun m =>
      match getField? m "id" with
      | some (.str s) => some s
      | _ => none))
  | some _ => .error ⟨"TypeError: map is not a function", none⟩

/-! ### Base URL handling -/

/-- The fallback Ollama host. -/
def defaultBaseUrl : String := "http://localhost:11434"

/-- Models line 83 of the first node file:
`(credentials.baseUrl || '').replace(/\/+$/, '') || 'http://localhost:11434'`
(an absent credential URL behaves as the empty string). -/
def baseUrlTags (u : String) : String :=
  let s := stripTrailingSlashes u
  if s = "" then defaultBaseUrl else s

/-- Models the rerank request URLs' base (line 167 of the first node file and
the identical line of both list-ranking files):
`(credentials.baseUrl || 'http://localhost:11434').replace(/\/+$/, '')`. -/
def baseUrlRerank (u : String) : String :=
  stripTrailingSlashes (if u = "" then defaultBaseUrl else u)

/-- Models line 78 of `part_000`: `(credentials.baseUrl || '').replace(/\/+$/, '')`
with no default host at all. -/
def baseUrlModelsEndpoint (u : String) : String :=
  stripTrailingSlashes u

/-- Request URL of the `/api/tags` model lister. -/
def tagsUrl (u : String) : String := baseUrlTags u ++ "/api/tags"

/-- Request URL of the classification chat call. -/
def chatUrl (u : String) : String := baseUrlRerank u ++ "/api/chat"

/-- Request URL of the list-ranking generate call. -/
def generateUrl (u : String) : String := baseUrlRerank u ++ "/api/generate"

/-- Request URL of the `part_000` model lister. -/
def modelsUrl (u : String) : String := baseUrlModelsEndpoint u ++ "/models"

/-- Whether a URL string still ends in a slash. -/
def endsWithSlash (s : String) : Bool := s.data.getLast? == some '/'

/-! ### Helper lemmas -/

theorem eraseP_setEntry (m : Metadata) (k : String) (v : MetaVal) :
    (setEntry m k v).eraseP (fun p => p.1 == k) = m.eraseP (fun p => p.1 == k) := by
  induction m with
  | nil => simp [setEntry, List.eraseP]
  | cons hd tl ih =>
    by_cases h : hd.1 = k
    · simp [setEntry, h, List.eraseP]
    · simp only [setEntry]
      rw [if_neg h]
      simp only [List.eraseP]
      have hb : (hd.1 == k) = false := by
        simp [beq_iff_eq, h]
      simp [hb, ih]

theorem getEntry_setEntry_self (m : Metadata) (k : String) (v : MetaVal) :
    getEntry (setEntry m k v) k = some v := by
  induction m with
  | nil => simp [setEntry, getEntry, List.find?]
  | cons hd tl ih =>
    by_cases h : hd.1 = k
    · simp [setEntry, h, getEntry, List.find?]
    · have hb : (hd.1 == k) = false := by simp [beq_iff_eq, h]
      simp only [setEntry]
      rw [if_neg h]
      simpa [getEntry, List.find?, hb] using ih

theorem mutateDoc_pageContent (d : Doc) (s : MetaVal) :
    (mutateDoc d s).pageContent = d.pageContent := rfl

theorem hasRelevanceScore_mutateDoc (d : Doc) (s : MetaVal) :
    hasRelevanceScore (mutateDoc d s) = true := by
  simp [hasRelevanceScore, mutateDoc, getEntry_setEntry_self]

theorem eraseP_mutateDoc (d : Doc) (s : MetaVal) :
    ((mutateDoc d s).metadata.getD []).eraseP (fun p => p.1 == "relevanceScore")
      = (d.metadata.getD []).eraseP (fun p => p.1 == "relevanceScore") := by
  simp [mutateDoc, eraseP_setEntry]

theorem docIdx?_lt {x : Option JNum} {n : Nat} {i : Nat}
    (h : docIdx? x n = some i) : i < n := by
  unfold docIdx? at h
  split at h
  · exact absurd h (by simp)
  · split at h
    · exact absurd h (by simp)
    · split at h
      · rename_i hc
        cases h
        exact hc.2
      · exact absurd h (by simp)

theorem applyResults_spec (results : List RerankResult) :
    ∀ (store st : List Doc) (idxs : List Nat),
      applyResults store results = some (st, idxs) →
      st.length = store.length ∧
      idxs.length = results.length ∧
      (∀ i ∈ idxs, i < store.length) ∧
      (∀ i, i < store.length → i ∉ idxs → st[i]? = store[i]?) ∧
      (∀ i ∈ idxs, ∃ d₀ d₁, store[i]? = some d₀ ∧ st[i]? = some d₁ ∧
        d₁.pageContent = d₀.pageContent ∧
        (d₁.metadata.getD []).eraseP (fun p => p.1 == "relevanceScore")
          = (d₀.metadata.getD []).eraseP (fun p => p.1 == "relevanceScore") ∧
        hasRelevanceScore d₁ = true) := by
  induction results with
  | nil =>
    intro store st idxs h
    simp only [applyResults, Option.some.injEq, Prod.mk.injEq] at h
    obtain ⟨h1, h2⟩ := h
    subst h1; subst h2
    refine ⟨rfl, rfl, ?_, ?_, ?_⟩ <;> simp
  | cons r rs ih =>
    intro store st idxs h
    simp only [applyResults] at h
    split at h
    · exact absurd h (by simp)
    · rename_i i hd
      split at h
      · exact absurd h (by simp)
      · rename_i st' idxs' hp
        simp only [Option.some.injEq, Prod.mk.injEq] at h
        obtain ⟨h1, h2⟩ := h
        subst h1; subst h2
        have hi : i < store.length := docIdx?_lt hd
        have hstore : store[i]? = some store[i] := List.getElem?_eq_getElem hi
        have hgetD : (store[i]?).getD dfltDoc = store[i] := by rw [hstore]; rfl
        rw [hgetD] at hp
        set d₀ := store[i] with hd₀
        set sc := r.relevanceScore with hsc
        set store' := store.set i (mutateDoc d₀ sc) with hstore'
        have hlen' : store'.length = store.length := List.length_set store i _
        obtain ⟨ihLen, ihCount, ihBound, ihFrame, ihSel⟩ := ih store' st' idxs' hp
        have hset_self : store'[i]? = some (mutateDoc d₀ sc) := by
          rw [hstore']
          exact List.getElem?_set_self hi
        refine ⟨by rw [ihLen, hlen'], by simp [ihCount], ?_, ?_, ?_⟩
        · intro j hj
          rcases List.mem_cons.mp hj with hj | hj
          · subst hj; exact hi
          · have := ihBound j hj
            rwa [hlen'] at this
        · intro j hjlt hjni
          have hne : j ≠ i := fun hji => hjni (hji ▸ List.mem_cons_self i idxs')
          have hni' : j ∉ idxs' := fun hji => hjni (List.mem_cons_of_mem i hji)
          have := ihFrame j (by rwa [hlen']) hni'
          rw [this, hstore', List.getElem?_set_ne (fun hij => hne hij.symm)]
        · intro j hj
          by_cases hjm : j ∈ idxs'
          · obtain ⟨e₀, e₁, he₀, he₁, hpc, her, hhs⟩ := ihSel j hjm
            by_cases hje : j = i
            · subst hje
              rw [hset_self] at he₀
              cases he₀
              exact ⟨d₀, e₁, hstore, he₁, by rw [hpc, mutateDoc_pageContent],
                by rw [her, eraseP_mutateDoc], hhs⟩
            · rw [hstore', List.getElem?_set_ne (fun hij => hje hij.symm)] at he₀
              exact ⟨e₀, e₁, he₀, he₁, hpc, her, hhs⟩
          · have hje : j = i := by
              rcases List.mem_cons.mp hj with hj | hj
              · exact hj
              · exact absurd hj hjm
            subst hje
            have := ihFrame j (by rw [hlen']; exact hi) hjm
            rw [hset_self] at this
            exact ⟨d₀, mutateDoc d₀ sc, hstore, this, mutateDoc_pageContent d₀ sc,
              eraseP_mutateDoc d₀ sc, hasRelevanceScore_mutateDoc d₀ sc⟩

theorem applyResults_isSome_of_valid (results : List RerankResult) :
    ∀ store : List Doc,
      (∀ r ∈ results, (docIdx? r.index store.length).isSome = true) →
      (applyResults store results).isSome = true := by
  induction results with
  | nil => intro store _; simp [applyResults]
  | cons r rs ih =>
    intro store h
    have hr := h r (List.mem_cons_self r rs)
    obtain ⟨i, hi⟩ := Option.isSome_iff_exists.mp hr
    have hrs : ∀ x ∈ rs,
        (docIdx? x.index (store.set i (mutateDoc ((store[i]?).getD dfltDoc) r.relevanceScore)).length).isSome = true := by
      intro x hx
      rw [List.length_set]
      exact h x (List.mem_cons_of_mem r hx)
    obtain ⟨⟨st, idxs⟩, hst⟩ := Option.isSome_iff_exists.mp (ih _ hrs)
    simp only [applyResults, hi, hst]
    rfl

theorem compressWith_ok_inv {docs : List Doc} {results : List RerankResult}
    {st out : List Doc} (h : compressWith docs results = .ok (st, out)) :
    ∃ idxs, applyResults docs results = some (st, idxs) ∧
      out = idxs.map (fun i => (st[i]?).getD dfltDoc) := by
  unfold compressWith at h
  split at h
  · rename_i st' idxs' hp
    simp only [Except.ok.injEq, Prod.mk.injEq] at h
    obtain ⟨h1, h2⟩ := h
    subst h1; subst h2
    exact ⟨idxs', hp, rfl⟩
  · exact absurd h (by simp)

theorem mem_insertDesc {z x : QwenResult} {l : List QwenResult} :
    z ∈ insertDesc x l ↔ z = x ∨ z ∈ l := by
  induction l with
  | nil => simp [insertDesc]
  | cons y ys ih =>
    simp only [insertDesc]
    split
    · simp [List.mem_cons]
    · simp only [List.mem_cons, ih]
      tauto

theorem insertDesc_length (x : QwenResult) (l : List QwenResult) :
    (insertDesc x l).length = l.length + 1 := by
  induction l with
  | nil => rfl
  | cons y ys ih =>
    simp only [insertDesc]
    split
    · simp
    · simp [ih]

theorem sortDesc_length (l : List QwenResult) : (sortDesc l).length = l.length := by
  induction l with
  | nil => rfl
  | cons x xs ih => simp [sortDesc, insertDesc_length, ih]

theorem mem_sortDesc {z : QwenResult} {l : List QwenResult} :
    z ∈ sortDesc l ↔ z ∈ l := by
  induction l with
  | nil => simp [sortDesc]
  | cons x xs ih => simp [sortDesc, mem_insertDesc, ih]

theorem pairwise_insertDesc {x : QwenResult} {l : List QwenResult}
    (h : List.Pairwise (fun a b => b.relevanceScore ≤ a.relevanceScore) l) :
    List.Pairwise (fun a b => b.relevanceScore ≤ a.relevanceScore) (insertDesc x l) := by
  induction l with
  | nil => simp [insertDesc]
  | cons y ys ih =>
    rcases List.pairwise_cons.mp h with ⟨hy, hys⟩
    simp only [insertDesc]
    split
    · rename_i hle
      refine List.pairwise_cons.mpr ⟨?_, h⟩
      intro b hb
      rcases List.mem_cons.mp hb with hb | hb
      · subst hb; exact hle
      · exact le_trans (hy b hb) hle
    · rename_i hgt
      have hxy : x.relevanceScore ≤ y.relevanceScore :=
        Nat.le_of_lt (Nat.lt_of_not_le hgt)
      refine List.pairwise_cons.mpr ⟨?_, ih hys⟩
      intro b hb
      rcases mem_insertDesc.mp hb with hb | hb
      · subst hb; exact hxy
      · exact hy b hb

theorem sortDesc_pairwise (l : List QwenResult) :
    List.Pairwise (fun a b => b.relevanceScore ≤ a.relevanceScore) (sortDesc l) := by
  induction l with
  | nil => simp [sortDesc]
  | cons x xs ih => exact pairwise_insertDesc ih

theorem insertDesc_score_one {x : QwenResult} (hx : x.relevanceScore = 1)
    (l : List QwenResult) (hl : ∀ r ∈ l, r.relevanceScore ≤ 1) :
    insertDesc x l = x :: l := by
  cases l with
  | nil => rfl
  | cons y ys =>
    simp only [insertDesc]
    rw [if_pos]
    rw [hx]
    exact hl y (List.mem_cons_self y ys)

theorem insertDesc_score_zero {x : QwenResult} (hx : x.relevanceScore = 0)
    (ones zeros : List QwenResult) (h1 : ∀ r ∈ ones, r.relevanceScore = 1)
    (h0 : ∀ r ∈ zeros, r.relevanceScore = 0) :
    insertDesc x (ones ++ zeros) = ones ++ x :: zeros := by
  induction ones with
  | nil =>
    cases zeros with
    | nil => rfl
    | cons z zs =>
      simp only [List.nil_append, insertDesc]
      rw [if_pos]
      rw [hx, h0 z (List.mem_cons_self z zs)]
  | cons o os ih =>
    show insertDesc x (o :: (os ++ zeros)) = o :: (os ++ x :: zeros)
    simp only [insertDesc]
    rw [if_neg]
    · rw [ih (fun r hr => h1 r (List.mem_cons_of_mem o hr))]
    · rw [hx, h1 o (List.mem_cons_self o os)]
      simp

theorem sortDesc_binary (l : List QwenResult)
    (h : ∀ r ∈ l, r.relevanceScore = 0 ∨ r.relevanceScore = 1) :
    sortDesc l = l.filter (fun r => r.relevanceScore == 1)
      ++ l.filter (fun r => r.relevanceScore == 0) := by
  induction l with
  | nil => rfl
  | cons x xs ih =>
    have hxs : ∀ r ∈ xs, r.relevanceScore = 0 ∨ r.relevanceScore = 1 :=
      fun r hr => h r (List.mem_cons_of_mem x hr)
    have hones : ∀ r ∈ xs.filter (fun r => r.relevanceScore == 1), r.relevanceScore = 1 := by
      intro r hr
      have := List.of_mem_filter hr
      simpa [beq_iff_eq] using this
    have hzeros : ∀ r ∈ xs.filter (fun r => r.relevanceScore == 0), r.relevanceScore = 0 := by
      intro r hr
      have := List.of_mem_filter hr
      simpa [beq_iff_eq] using this
    rcases h x (List.mem_cons_self x xs) with hx0 | hx1
    · simp only [sortDesc, ih hxs]
      rw [insertDesc_score_zero hx0 _ _ hones hzeros]
      simp [List.filter_cons, hx0]
    · simp only [sortDesc, ih hxs]
      rw [insertDesc_score_one hx1]
      · simp [List.filter_cons, hx1]
      · intro r hr
        rcases List.mem_append.mp hr with hr | hr
        · exact Nat.le_of_eq (hones r hr)
        · exact Nat.le_of_lt (by rw [hzeros r hr]; exact Nat.zero_lt_one)

theorem scoreReply_binary (reply : Option String) :
    scoreReply reply = 0 ∨ scoreReply reply = 1 := by
  cases reply with
  | none => left; rfl
  | some s =>
    simp only [scoreReply]
    split
    · right; rfl
    · left; rfl

theorem collectRange_length (grade : Nat → Except OpError (Option String)) :
    ∀ (k start : Nat) (replies : List (Option String)),
      collectRange grade start k = .ok replies → replies.length = k := by
  intro k
  induction k with
  | zero =>
    intro start replies h
    simp only [collectRange, Except.ok.injEq] at h
    subst h; rfl
  | succ n ih =>
    intro start replies h
    simp only [collectRange] at h
    split at h
    · exact absurd h (by simp)
    · split at h
      · exact absurd h (by simp)
      · rename_i rs hrs
        simp only [Except.ok.injEq] at h
        subst h
        simp [ih (start + 1) rs hrs]

theorem qwenBase_length (replies : List (Option String)) :
    (qwenBase replies).length = replies.length := by
  simp [qwenBase, List.enum_length]

theorem qwenBase_index_lt {r : QwenResult} {replies : List (Option String)}
    (h : r ∈ qwenBase replies) : r.index < replies.length := by
  simp only [qwenBase, List.mem_map] at h
  obtain ⟨p, hp, rfl⟩ := h
  obtain ⟨i, rep⟩ := p
  exact (List.mem_enum hp).1

theorem qwenBase_score_binary {r : QwenResult} {replies : List (Option String)}
    (h : r ∈ qwenBase replies) : r.relevanceScore = 0 ∨ r.relevanceScore = 1 := by
  simp only [qwenBase, List.mem_map] at h
  obtain ⟨p, _, rfl⟩ := h
  exact scoreReply_binary p.2

theorem rerankQwen_ok_inv {n topN : Nat}
    {grade : Nat → Except OpError (Option String)} {out : List QwenResult}
    (h : rerankQwen n grade topN = .ok out) :
    ∃ replies, collectRange grade 0 n = .ok replies ∧
      out = (sortDesc (qwenBase replies)).take
        (min topN (sortDesc (qwenBase replies)).length) := by
  unfold rerankQwen at h
  split at h
  · exact absurd h (by simp)
  · rename_i replies hr
    simp only [Except.ok.injEq] at h
    exact ⟨replies, hr, h.symm⟩

theorem rerankQwen_length_le {n topN : Nat}
    {grade : Nat → Except OpError (Option String)} {out : List QwenResult}
    (h : rerankQwen n grade topN = .ok out) : out.length ≤ topN := by
  obtain ⟨replies, _, rfl⟩ := rerankQwen_ok_inv h
  rw [List.length_take]
  omega

theorem rerankQwen_index_lt {n topN : Nat}
    {grade : Nat → Except OpError (Option String)} {out : List QwenResult}
    (h : rerankQwen n grade topN = .ok out) : ∀ r ∈ out, r.index < n := by
  obtain ⟨replies, hcol, rfl⟩ := rerankQwen_ok_inv h
  intro r hr
  have h1 := List.take_subset _ _ hr
  have h2 := mem_sortDesc.mp h1
  have := qwenBase_index_lt h2
  rwa [collectRange_length grade n 0 replies hcol] at this

theorem rerank_ok_inv {text : String} {topN itemIndex : Nat}
    {results : List RerankResult}
    (h : rerank text topN itemIndex = .ok results) :
    ∃ sub j, extractArray text = some sub ∧ jsonParse sub = some j ∧
      results = ((jsonElems j).take (min topN (jsonElems j).length)).map toRerankResult := by
  unfold rerank at h
  split at h
  · exact absurd h (by simp)
  · rename_i sub hsub
    split at h
    · exact absurd h (by simp)
    · rename_i j hj
      simp only [Except.ok.injEq] at h
      exact ⟨sub, j, hsub, hj, h.symm⟩

theorem rerank_length_le {text : String} {topN itemIndex : Nat}
    {results : List RerankResult}
    (h : rerank text topN itemIndex = .ok results) : results.length ≤ topN := by
  obtain ⟨sub, j, _, _, rfl⟩ := rerank_ok_inv h
  rw [List.length_map, List.length_take]
  omega

theorem docIdx?_qwenToResult {r : QwenResult} {n : Nat} (h : r.index < n) :
    docIdx? (qwenToResult r).index n = some r.index := by
  simp only [qwenToResult, docIdx?, jnumToInt]
  norm_num
  simp [Int.toNat_ofNat, h]

theorem head?_dropWhile_false {p : Char → Bool} {l : List Char} {a : Char}
    (h : (l.dropWhile p).head? = some a) : p a = false := by
  induction l with
  | nil => simp [List.dropWhile] at h
  | cons c cs ih =>
    rw [List.dropWhile] at h
    cases hpc : p c with
    | true => rw [hpc] at h; exact ih h
    | false =>
      rw [hpc] at h
      simp only [List.head?_cons, Option.some.injEq] at h
      subst h; exact hpc

theorem endsWithSlash_strip (u : String) :
    endsWithSlash (stripTrailingSlashes u) = false := by
  unfold endsWithSlash stripTrailingSlashes
  rw [show (String.mk ((u.data.reverse.dropWhile (fun c => c = '/')).reverse)).data
      = (u.data.reverse.dropWhile (fun c => c = '/')).reverse from rfl]
  rw [List.getLast?_reverse]
  cases hh : (u.data.reverse.dropWhile (fun c => c = '/')).head? with
  | none => rfl
  | some a =>
    have ha : a ≠ '/' := by simpa using head?_dropWhile_false hh
    simp [ha]

theorem stripTrailingSlashes_decomp (u : String) :
    u.data = (stripTrailingSlashes u).data
      ++ List.replicate ((u.data.reverse.takeWhile (fun c => c = '/')).length) '/' := by
  have h1 : u.data.reverse.takeWhile (fun c => c = '/') =
      List.replicate ((u.data.reverse.takeWhile (fun c => c = '/')).length) '/' :=
    List.eq_replicate_of_mem (fun b hb => by simpa using List.mem_takeWhile_imp hb)
  calc u.data = u.data.reverse.reverse := (List.reverse_reverse _).symm
    _ = ((u.data.reverse.takeWhile (fun c => c = '/'))
          ++ (u.data.reverse.dropWhile (fun c => c = '/'))).reverse := by
        rw [List.takeWhile_append_dropWhile]
    _ = (u.data.reverse.dropWhile (fun c => c = '/')).reverse
          ++ (u.data.reverse.takeWhile (fun c => c = '/')).reverse := by
        rw [List.reverse_append]
    _ = (stripTrailingSlashes u).data
          ++ List.replicate ((u.data.reverse.takeWhile (fun c => c = '/')).length) '/' := by
        rw [show (stripTrailingSlashes u).data
            = (u.data.reverse.dropWhile (fun c => c = '/')).reverse from rfl]
        rw [← List.reverse_replicate, ← h1]

/-! ### Claim theorems -/

/-- C3: the list-ranking parser extracts the JSON array substring from the
reply text, converts each entry's 1-based `index` to 0-based, and truncates
to `topN`; on the reply `Some text [{"index":2,"score":0.9},{"index":1,"score":0.4}] trailing`
(with the default `topN = 3`) the top result is 0-based index 1 (`⟨1, 0⟩`
denotes the integer 1) with score 0.9 (`⟨9, -1⟩` denotes `9 * 10^-1`), and
the second is 0-based index 0 with score 0.4. -/
theorem rerank_parses_example_and_truncates :
    (∀ (text : String) (topN itemIndex : Nat) (results : List RerankResult),
        rerank text topN itemIndex = .ok results → results.length ≤ topN)
  ∧ extractArray "Some text [\x7b\"index\":2,\"score\":0.9\x7d,\x7b\"index\":1,\"score\":0.4\x7d] trailing"
      = some "[\x7b\"index\":2,\"score\":0.9\x7d,\x7b\"index\":1,\"score\":0.4\x7d]"
  ∧ rerank "Some text [\x7b\"index\":2,\"score\":0.9\x7d,\x7b\"index\":1,\"score\":0.4\x7d] trailing" 3 0
      = .ok [⟨some ⟨1, 0⟩, some (.num ⟨9, -1⟩)⟩, ⟨some ⟨0, 0⟩, some (.num ⟨4, -1⟩)⟩] :=
  ⟨fun _ _ _ _ h => rerank_length_le h, by decide, by rfl⟩

/-- Witness for C3: the truncation bound applied at the example input. -/
theorem rerank_parses_example_and_truncates_witness :
    ([⟨some ⟨1, 0⟩, some (.num ⟨9, -1⟩)⟩,
      ⟨some ⟨0, 0⟩, some (.num ⟨4, -1⟩)⟩] : List RerankResult).length ≤ 3 :=
  rerank_parses_example_and_truncates.1
    "Some text [\x7b\"index\":2,\"score\":0.9\x7d,\x7b\"index\":1,\"score\":0.4\x7d] trailing" 3 0 _
    rerank_parses_example_and_truncates.2.2

/-- C4: for an empty (or absent) input list, every `compressDocuments`
variant returns the empty list at once; the result is the same for every
possible network outcome (including failures), which is exactly the
observable content of "no network call is issued". -/
theorem compressDocuments_empty_returns_empty :
    (∀ (grade : Nat → Except OpError (Option String)) (topN : Nat),
        compressDocumentsQwen none grade topN = .ok ([], []) ∧
        compressDocumentsQwen (some []) grade topN = .ok ([], []))
  ∧ (∀ (response : Except OpError String) (topN itemIndex : Nat),
        compressDocumentsGen none response topN itemIndex = .ok ([], []) ∧
        compressDocumentsGen (some []) response topN itemIndex = .ok ([], [])) :=
  ⟨fun _ _ => ⟨rfl, rfl⟩, fun _ _ _ => ⟨rfl, rfl⟩⟩

/-- C5: in the list-ranking variant, a reply with no bracketed array
substring, and a reply whose extracted bracketed substring is not valid
JSON, each make `rerank` fail with the corresponding typed
`NodeOperationError` carrying its message and the item index — never a
crash or a silent empty result. -/
theorem rerank_parse_failures_are_typed_errors :
    (∀ (text : String) (topN itemIndex : Nat), extractArray text = none →
        rerank text topN itemIndex
          = .error ⟨"Failed to parse reranker output.", some itemIndex⟩)
  ∧ (∀ (text sub : String) (topN itemIndex : Nat),
        extractArray text = some sub → jsonParse sub = none →
        rerank text topN itemIndex
          = .error ⟨"Invalid JSON in reranker response.", some itemIndex⟩) := by
  constructor
  · intro text topN itemIndex h
    unfold rerank
    rw [h]
  · intro text sub topN itemIndex h1 h2
    unfold rerank
    rw [h1]
    simp only [h2]

/-- Witness for C5: both failure paths at concrete replies. -/
theorem rerank_parse_failures_are_typed_errors_witness :
    rerank "the model rambled with no array" 3 7
      = .error ⟨"Failed to parse reranker output.", some 7⟩ ∧
    rerank "see [oops] there" 3 7
      = .error ⟨"Invalid JSON in reranker response.", some 7⟩ :=
  ⟨rerank_parse_failures_are_typed_errors.1 "the model rambled with no array" 3 7 (by rfl),
   rerank_parse_failures_are_typed_errors.2 "see [oops] there" "[oops]" 3 7 (by rfl) (by rfl)⟩

/-- C6 counterexample: the `/models` lister of `part_000` does NOT fail when
the expected `data` array field is missing — `result.data ?? []` silently
yields the empty list, contradicting the claim that every variant raises a
SchemaError. -/
theorem getModelsList_missing_data_is_silent :
    getModelsList (Json.obj [("foo", Json.bool true)]) = .ok [] := rfl

/-- C6 amended: the two `/api/tags` listers do fail with the explicit
schema error whenever the `models` field is missing or is not an array, but
the `/models` lister of `part_000` silently returns an empty list when its
`data` field is missing or null (and only a non-null non-array `data`
crashes with a TypeError rather than a typed error). -/
theorem getModels_schema_validation_amended :
    (∀ body : Json, (∀ l, getField? body "models" ≠ some (.arr l)) →
        getModelsTags body
          = .error ⟨"Unexpected response: missing \"models\" array from Ollama API.", none⟩)
  ∧ (∀ body : Json, (∀ l, getField? body "models" ≠ some (.arr l)) →
        getModelsTagsAll body
          = .error ⟨"Unexpected response: missing \"models\" array from Ollama API.", none⟩)
  ∧ (∀ body : Json, getField? body "data" = none → getModelsList body = .ok [])
  ∧ (∀ body : Json, getField? body "data" = some .null → getModelsList body = .ok [])
  ∧ (∀ body : Json, getField? body "data" = some (.bool true) →
        getModelsList body = .error ⟨"TypeError: map is not a function", none⟩) := by
  refine ⟨?_, ?_, ?_, ?_, ?_⟩
  · intro body h
    unfold getModelsTags
    split
    · rename_i ms hms
      exact absurd hms (h ms)
    · rfl
  · intro body h
    unfold getModelsTagsAll
    split
    · rename_i ms hms
      exact absurd hms (h ms)
    · rfl
  · intro body h
    unfold getModelsList
    rw [h]
  · intro body h
    unfold getModelsList
    rw [h]
  · intro body h
    unfold getModelsList
    rw [h]

/-- Witness for C6 amended: concrete bodies for each case. -/
theorem getModels_schema_validation_amended_witness :
    getModelsTags (Json.obj [])
      = .error ⟨"Unexpected response: missing \"models\" array from Ollama API.", none⟩ ∧
    getModelsTagsAll (Json.obj [("models", Json.num ⟨3, 0⟩)])
      = .error ⟨"Unexpected response: missing \"models\" array from Ollama API.", none⟩ ∧
    getModelsList (Json.obj [("data", Json.null)]) = .ok [] ∧
    getModelsList (Json.obj [("data", Json.bool true)])
      = .error ⟨"TypeError: map is not a function", none⟩ :=
  ⟨getModels_schema_validation_amended.1 (Json.obj []) (fun _ h => Option.noConfusion h),
   getModels_schema_validation_amended.2.1 (Json.obj [("models", Json.num ⟨3, 0⟩)])
     (fun _ h => by cases h),
   getModels_schema_validation_amended.2.2.2.1 (Json.obj [("data", Json.null)]) rfl,
   getModels_schema_validation_amended.2.2.2.2 (Json.obj [("data", Json.bool true)]) rfl⟩

/-- C8 counterexample: the `/models` lister of `part_000` applies no default
host — with an empty credential base URL it strips slashes from the empty
string and issues the request against the relative URL `/models`, never
`http://localhost:11434`. -/
theorem modelsEndpoint_empty_baseUrl_no_default :
    baseUrlModelsEndpoint "" = "" ∧
    modelsUrl "" = "/models" ∧
    baseUrlModelsEndpoint "" ≠ defaultBaseUrl := by
  refine ⟨rfl, rfl, ?_⟩
  decide

/-- C8 amended: every URL-building operation strips all trailing slashes
from the base URL before appending the endpoint path, and the rerank
operations and the `/api/tags` lister default an empty base URL to
`http://localhost:11434`; the `/models` lister of `part_000`, however,
leaves an empty base URL empty (no default host).  The decomposition
conjunct states that stripping removes exactly a (possibly empty) run of
trailing slashes and nothing else. -/
theorem baseUrl_normalization_amended :
    baseUrlTags "" = defaultBaseUrl
  ∧ baseUrlRerank "" = defaultBaseUrl
  ∧ baseUrlModelsEndpoint "" = ""
  ∧ (∀ u, endsWithSlash (baseUrlTags u) = false)
  ∧ (∀ u, endsWithSlash (baseUrlRerank u) = false)
  ∧ (∀ u, endsWithSlash (baseUrlModelsEndpoint u) = false)
  ∧ (∀ u, ∃ k, u.data = (stripTrailingSlashes u).data ++ List.replicate k '/')
  ∧ tagsUrl "" = "http://localhost:11434/api/tags"
  ∧ chatUrl "" = "http://localhost:11434/api/chat"
  ∧ generateUrl "" = "http://localhost:11434/api/generate" := by
  refine ⟨by decide, by decide, rfl, ?_, ?_, ?_, ?_, by decide, by decide, by decide⟩
  · intro u
    show endsWithSlash
      (if stripTrailingSlashes u = "" then defaultBaseUrl else stripTrailingSlashes u) = false
    split
    · decide
    · exact endsWithSlash_strip u
  · intro u
    exact endsWithSlash_strip _
  · intro u
    exact endsWithSlash_strip u
  · intro u
    exact ⟨_, stripTrailingSlashes_decomp u⟩

/-- C1: for every non-empty input document list, whenever
`compressDocuments` returns (in either variant) it returns at most `topN`
documents, and every returned document carries a `relevanceScore` property
in its metadata (the metadata container having been created when absent). -/
theorem compressDocuments_topN_and_relevanceScore
    (docs : List Doc) (hne : docs ≠ []) :
    (∀ (grade : Nat → Except OpError (Option String)) (topN : Nat) (st out : List Doc),
        compressDocumentsQwen (some docs) grade topN = .ok (st, out) →
        out.length ≤ topN ∧ ∀ d ∈ out, hasRelevanceScore d = true)
  ∧ (∀ (response : Except OpError String) (topN itemIndex : Nat) (st out : List Doc),
        compressDocumentsGen (some docs) response topN itemIndex = .ok (st, out) →
        out.length ≤ topN ∧ ∀ d ∈ out, hasRelevanceScore d = true) := by
  have hempty : ¬ (docs.isEmpty = true) := by simp [List.isEmpty_iff, hne]
  constructor
  · intro grade topN st out h
    simp only [compressDocumentsQwen] at h
    rw [if_neg hempty] at h
    split at h
    · exact absurd h (by simp)
    · rename_i results hres
      obtain ⟨idxs, happ, hout⟩ := compressWith_ok_inv h
      obtain ⟨_, hcount, _, _, hsel⟩ := applyResults_spec _ _ _ _ happ
      constructor
      · rw [hout, List.length_map, hcount, List.length_map]
        exact rerankQwen_length_le hres
      · intro d hd
        rw [hout] at hd
        obtain ⟨i, hi, rfl⟩ := List.mem_map.mp hd
        obtain ⟨d₀, d₁, _, hst, _, _, hscore⟩ := hsel i hi
        rw [hst]
        exact hscore
  · intro response topN itemIndex st out h
    simp only [compressDocumentsGen] at h
    rw [if_neg hempty] at h
    split at h
    · exact absurd h (by simp)
    · rename_i text hresp
      split at h
      · exact absurd h (by simp)
      · rename_i results hres
        obtain ⟨idxs, happ, hout⟩ := compressWith_ok_inv h
        obtain ⟨_, hcount, _, _, hsel⟩ := applyResults_spec _ _ _ _ happ
        constructor
        · rw [hout, List.length_map, hcount]
          exact rerank_length_le hres
        · intro d hd
          rw [hout] at hd
          obtain ⟨i, hi, rfl⟩ := List.mem_map.mp hd
          obtain ⟨d₀, d₁, _, hst, _, _, hscore⟩ := hsel i hi
          rw [hst]
          exact hscore

/-- Witness for C1: the classification variant at one document graded
"yes" with `topN = 3`. -/
theorem compressDocuments_topN_and_relevanceScore_witness :
    ([⟨"a", some [("relevanceScore", some (.num ⟨1, 0⟩))]⟩] : List Doc).length ≤ 3 ∧
    ∀ d ∈ ([⟨"a", some [("relevanceScore", some (.num ⟨1, 0⟩))]⟩] : List Doc),
      hasRelevanceScore d = true :=
  (compressDocuments_topN_and_relevanceScore [⟨"a", none⟩] (by simp)).1
    (fun _ => .ok (some "yes")) 3
    [⟨"a", some [("relevanceScore", some (.num ⟨1, 0⟩))]⟩]
    [⟨"a", some [("relevanceScore", some (.num ⟨1, 0⟩))]⟩] rfl

/-- C2: in the classification variant a reply scores 1 exactly when its
trimmed, lower-cased text contains the substring "yes" (so "Yes, relevant."
scores 1 and "No." scores 0), and the collected results are sorted
descending by score, so in any successful `rerankQwen` output every score-1
entry precedes every score-0 entry. -/
theorem rerankQwen_yes_scoring_and_descending :
    (∀ s : String, scoreReply (some s) = 1 ↔ strContains (lowerStr (trimStr s)) "yes" = true)
  ∧ scoreReply (some "Yes, relevant.") = 1
  ∧ scoreReply (some "No.") = 0
  ∧ (∀ (n : Nat) (grade : Nat → Except OpError (Option String)) (topN : Nat)
        (out : List QwenResult), rerankQwen n grade topN = .ok out →
        List.Pairwise (fun a b => b.relevanceScore ≤ a.relevanceScore) out) := by
  refine ⟨?_, by decide, by decide, ?_⟩
  · intro s
    simp only [scoreReply]
    split
    · rename_i h; simp [h]
    · rename_i h; simp [h]
  · intro n grade topN out h
    obtain ⟨replies, _, rfl⟩ := rerankQwen_ok_inv h
    exact List.Pairwise.sublist (List.take_sublist _ _) (sortDesc_pairwise _)

/-- Witness for C2: the descending-order conclusion at a concrete graded
batch (document 0 graded "no", document 1 graded "yes"). -/
theorem rerankQwen_yes_scoring_and_descending_witness :
    List.Pairwise (fun a b : QwenResult => b.relevanceScore ≤ a.relevanceScore)
      [⟨1, 1⟩, ⟨0, 0⟩] :=
  rerankQwen_yes_scoring_and_descending.2.2.2 2
    (fun i => .ok (some (if i = 0 then "no" else "yes"))) 3 [⟨1, 1⟩, ⟨0, 0⟩] rfl

/-- C9: the classification variant's descending sort is stable and the
per-document results are collected in input-index order, so the sorted
results are exactly the score-1 results in input order followed by the
score-0 results in input order (then truncated to `topN`). -/
theorem rerankQwen_stable_ones_before_zeros :
    (∀ replies : List (Option String),
        sortDesc (qwenBase replies)
          = (qwenBase replies).filter (fun r => r.relevanceScore == 1)
            ++ (qwenBase replies).filter (fun r => r.relevanceScore == 0))
  ∧ (∀ (n : Nat) (grade : Nat → Except OpError (Option String)) (topN : Nat)
        (replies : List (Option String)), collectRange grade 0 n = .ok replies →
        rerankQwen n grade topN
          = .ok (((qwenBase replies).filter (fun r => r.relevanceScore == 1)
              ++ (qwenBase replies).filter (fun r => r.relevanceScore == 0)).take
              (min topN (qwenBase replies).length))) := by
  have hbin : ∀ replies : List (Option String),
      sortDesc (qwenBase replies)
        = (qwenBase replies).filter (fun r => r.relevanceScore == 1)
          ++ (qwenBase replies).filter (fun r => r.relevanceScore == 0) :=
    fun replies => sortDesc_binary _ (fun r hr => qwenBase_score_binary hr)
  refine ⟨hbin, ?_⟩
  intro n grade topN replies hcol
  unfold rerankQwen
  rw [hcol]
  simp only [sortDesc_length]
  rw [hbin replies]

/-- Witness for C9: the characterization at a concrete graded batch. -/
theorem rerankQwen_stable_ones_before_zeros_witness :
    rerankQwen 2 (fun i => .ok (some (if i = 0 then "no" else "yes"))) 3
      = .ok (((qwenBase [some "no", some "yes"]).filter (fun r => r.relevanceScore == 1)
          ++ (qwenBase [some "no", some "yes"]).filter (fun r => r.relevanceScore == 0)).take
          (min 3 (qwenBase [some "no", some "yes"]).length)) :=
  rerankQwen_stable_ones_before_zeros.2 2
    (fun i => .ok (some (if i = 0 then "no" else "yes"))) 3 [some "no", some "yes"] rfl

/-- C7 counterexample: the list-ranking variant performs no bounds check on
the model's indices.  With a single input document, the reply
`[{"index":3,"score":1}]` produces a rerank result whose 0-based index 2
names no position of the input list, and `compressDocuments` then fails on
the out-of-range lookup (`documents[2]` is `undefined`). -/
theorem rerank_index_out_of_range_counterexample :
    rerank "[\x7b\"index\":3,\"score\":1\x7d]" 3 0
      = .ok [⟨some ⟨2, 0⟩, some (.num ⟨1, 0⟩)⟩] ∧
    docIdx? (some ⟨2, 0⟩) 1 = none ∧
    compressDocumentsGen (some [⟨"a", none⟩]) (.ok "[\x7b\"index\":3,\"score\":1\x7d]") 3 0
      = .error ⟨"TypeError: cannot set properties of undefined", none⟩ :=
  ⟨rfl, rfl, rfl⟩

/-- C7 amended: in the classification variant every result index is a valid
0-based position of the input list and the mutation pass of
`compressDocuments` always succeeds; in the list-ranking variant the
indices are whatever the model replied minus one, so the mutation pass is
only guaranteed to succeed under the assumption that every result index
names a valid position. -/
theorem rerank_index_validity_amended :
    (∀ (n topN : Nat) (grade : Nat → Except OpError (Option String))
        (out : List QwenResult),
        rerankQwen n grade topN = .ok out → ∀ r ∈ out, r.index < n)
  ∧ (∀ (docs : List Doc) (grade : Nat → Except OpError (Option String)) (topN : Nat)
        (results : List QwenResult),
        rerankQwen docs.length grade topN = .ok results →
        (applyResults docs (results.map qwenToResult)).isSome = true)
  ∧ (∀ (docs : List Doc) (text : String) (topN itemIndex : Nat)
        (results : List RerankResult),
        rerank text topN itemIndex = .ok results →
        (∀ r ∈ results, (docIdx? r.index docs.length).isSome = true) →
        (applyResults docs results).isSome = true) := by
  refine ⟨?_, ?_, ?_⟩
  · intro n topN grade out h
    exact rerankQwen_index_lt h
  · intro docs grade topN results h
    apply applyResults_isSome_of_valid
    intro x hx
    obtain ⟨r, hr, rfl⟩ := List.mem_map.mp hx
    rw [docIdx?_qwenToResult (rerankQwen_index_lt h r hr)]
    rfl
  · intro docs text topN itemIndex results _ hvalid
    exact applyResults_isSome_of_valid _ _ hvalid

/-- Witness for C7 amended: all three conjuncts at concrete inputs. -/
theorem rerank_index_validity_amended_witness :
    (∀ r ∈ ([⟨1, 1⟩, ⟨0, 0⟩] : List QwenResult), r.index < 2) ∧
    (applyResults [⟨"a", none⟩, ⟨"b", none⟩]
        (([⟨1, 1⟩, ⟨0, 0⟩] : List QwenResult).map qwenToResult)).isSome = true ∧
    (applyResults [⟨"a", none⟩]
        ([⟨some ⟨0, 0⟩, some (.num ⟨2, 0⟩)⟩] : List RerankResult)).isSome = true :=
  ⟨rerank_index_validity_amended.1 2 3
      (fun i => .ok (some (if i = 0 then "no" else "yes"))) [⟨1, 1⟩, ⟨0, 0⟩] rfl,
   rerank_index_validity_amended.2.1 [⟨"a", none⟩, ⟨"b", none⟩]
      (fun i => .ok (some (if i = 0 then "no" else "yes"))) 3 [⟨1, 1⟩, ⟨0, 0⟩] rfl,
   rerank_index_validity_amended.2.2 [⟨"a", none⟩] "[\x7b\"index\":1,\"score\":2\x7d]" 3 0
      [⟨some ⟨0, 0⟩, some (.num ⟨2, 0⟩)⟩] rfl (by decide)⟩

/-- C10: frame property of the shared `compressDocuments` body
(`compressWith`, reached by both variants after reranking): the post-state
array has the same length as the input; every non-selected document is
untouched; every selected document keeps its `pageContent` and all metadata
entries other than `relevanceScore` (the metadata object being created when
absent) and gains a `relevanceScore` property; and the returned list is
exactly the selected positions' post-state documents (the aliasing of the
mutated objects). -/
theorem compressDocuments_frame_property
    (docs : List Doc) (results : List RerankResult) (st out : List Doc)
    (h : compressWith docs results = .ok (st, out)) :
    ∃ idxs : List Nat,
      applyResults docs results = some (st, idxs) ∧
      out = idxs.map (fun i => (st[i]?).getD dfltDoc) ∧
      st.length = docs.length ∧
      (∀ i, i < docs.length → i ∉ idxs → st[i]? = docs[i]?) ∧
      (∀ i ∈ idxs, ∃ d₀ d₁, docs[i]? = some d₀ ∧ st[i]? = some d₁ ∧
        d₁.pageContent = d₀.pageContent ∧
        (d₁.metadata.getD []).eraseP (fun p => p.1 == "relevanceScore")
          = (d₀.metadata.getD []).eraseP (fun p => p.1 == "relevanceScore") ∧
        hasRelevanceScore d₁ = true) := by
  obtain ⟨idxs, happ, hout⟩ := compressWith_ok_inv h
  obtain ⟨hlen, _, _, hframe, hsel⟩ := applyResults_spec _ _ _ _ happ
  exact ⟨idxs, happ, hout, hlen, hframe, hsel⟩

/-- Witness for C10: the frame property at one document with pre-existing
metadata entry `k ↦ "v"`, selected with score 0.5. -/
theorem compressDocuments_frame_property_witness :
    ∃ idxs : List Nat,
      applyResults [⟨"a", some [("k", some (.str "v"))]⟩]
          [⟨some ⟨0, 0⟩, some (.num ⟨5, -1⟩)⟩]
        = some ([⟨"a", some [("k", some (.str "v")), ("relevanceScore", some (.num ⟨5, -1⟩))]⟩], idxs) ∧
      ([⟨"a", some [("k", some (.str "v")), ("relevanceScore", some (.num ⟨5, -1⟩))]⟩] : List Doc)
        = idxs.map (fun i =>
            (([⟨"a", some [("k", some (.str "v")), ("relevanceScore", some (.num ⟨5, -1⟩))]⟩] : List Doc)[i]?).getD dfltDoc) ∧
      ([⟨"a", some [("k", some (.str "v")), ("relevanceScore", some (.num ⟨5, -1⟩))]⟩] : List Doc).length
        = ([⟨"a", some [("k", some (.str "v"))]⟩] : List Doc).length ∧
      (∀ i, i < ([⟨"a", some [("k", some (.str "v"))]⟩] : List Doc).length → i ∉ idxs →
        ([⟨"a", some [("k", some (.str "v")), ("relevanceScore", some (.num ⟨5, -1⟩))]⟩] : List Doc)[i]?
          = ([⟨"a", some [("k", some (.str "v"))]⟩] : List Doc)[i]?) ∧
      (∀ i ∈ idxs, ∃ d₀ d₁,
        ([⟨"a", some [("k", some (.str "v"))]⟩] : List Doc)[i]? = some d₀ ∧
        ([⟨"a", some [("k", some (.str "v")), ("relevanceScore", some (.num ⟨5, -1⟩))]⟩] : List Doc)[i]? = some d₁ ∧
        d₁.pageContent = d₀.pageContent ∧
        (d₁.metadata.getD []).eraseP (fun p => p.1 == "relevanceScore")
          = (d₀.metadata.getD []).eraseP (fun p => p.1 == "relevanceScore") ∧
        hasRelevanceScore d₁ = true) :=
  compressDocuments_frame_property [⟨"a", some [("k", some (.str "v"))]⟩]
    [⟨some ⟨0, 0⟩, some (.num ⟨5, -1⟩)⟩]
    [⟨"a", some [("k", some (.str "v")), ("relevanceScore", some (.num ⟨5, -1⟩))]⟩]
    [⟨"a", some [("k", some (.str "v")), ("relevanceScore", some (.num ⟨5, -1⟩))]⟩] rfl
